import Mathlib

/-!
Verification of the word-suggestion and automated-typing core of
`wordbomb_typing_overlay.py` (variant B, "WordBomb" mode).

Words are modelled as `List Char`.  Python's `sorted` on duplicate-free
string collections is modelled by insertion sort under the corresponding
total order: both produce the unique ordered permutation, so the model is
extensionally faithful.  Python's `str.lower` is modelled by the ASCII
lowering `Char.toLower`, which agrees with CPython on the alphabetic
keys the overlay feeds it.
-/

/-- Words of the dictionary / round pool, as lists of characters. -/
abbrev Word : Type := List Char

/-- Strict lexicographic comparison of words by character code points,
Python's `<` on `str`. -/
def lexLt : Word → Word → Bool
  | _, [] => false
  | [], _ :: _ => true
  | a :: as, b :: bs => if a < b then true else if b < a then false else lexLt as bs

/-- Lexicographic `≤` on words, Python's `<=` on `str`. -/
def lexLe (a b : Word) : Bool := !(lexLt b a)

/-- The sort key `lambda x: (len(x), x)` of `WordSuggester.suggest`,
as the corresponding total order: compare lengths first, then
lexicographically. -/
def keyLe (a b : Word) : Bool :=
  if a.length < b.length then true
  else if b.length < a.length then false
  else lexLe a b

/-- `lexLe` as a proposition (for `List.insertionSort` / `List.Sorted`). -/
abbrev lexLeP (a b : Word) : Prop := lexLe a b = true

/-- `lexLt` as a proposition. -/
abbrev lexLtP (a b : Word) : Prop := lexLt a b = true

/-- `keyLe` as a proposition. -/
abbrev keyLeP (a b : Word) : Prop := keyLe a b = true

/-- Python's substring test `needle in hay` on strings (contiguous
substring). -/
def containsSub (needle : Word) : Word → Bool
  | [] => needle.isPrefixOf []
  | c :: t => needle.isPrefixOf (c :: t) || containsSub needle t

/-- Python's `max(results, key=len)`: the first element of maximal
length (replacement only on strictly greater key).  Junk value `[]` on
the empty list, on which the source never calls it. -/
def pyMaxByLen : List Word → Word
  | [] => []
  | w :: ws => ws.foldl (fun acc x => if acc.length < x.length then x else acc) w

/-- Python's `str.lower`, character-wise ASCII lowering. -/
def pyLower (w : Word) : Word := w.map Char.toLower

/-- State of `WordSuggester`: the mutable word set `_set` (a
duplicate-free list up to construction) and the sorted list `_list`. -/
structure WordSuggester where
  sset : List Word
  slist : List Word
deriving DecidableEq

/-- `WordSuggester.__init__`: `_set = set(words)`, `_list = sorted(_set)`. -/
def WordSuggester.init (words : List Word) : WordSuggester :=
  { sset := words.dedup, slist := List.insertionSort lexLeP words.dedup }

/-- The ranking/truncation tail of `WordSuggester.suggest` (lines 54-60):
sort by `(len, lex)`, then either keep the first `limit` entries (when the
longest candidate is already among them) or keep `limit - 1` entries and
append the longest candidate. -/
def rankTruncate (results : List Word) (limit : Nat) : List Word :=
  let results_sorted := List.insertionSort keyLeP results
  if results_sorted = [] then results_sorted
  else
    let longest_word := pyMaxByLen results
    if longest_word ∈ results_sorted.take limit then results_sorted.take limit
    else results_sorted.take (limit - 1) ++ [longest_word]

/-- `WordSuggester.suggest(letters, limit)` (lines 44-61).  The `None`
guard of the source maps `None` to the empty buffer, which the model
takes directly. -/
def WordSuggester.suggest (ws : WordSuggester) (letters : Word) (limit : Nat) :
    List Word × Bool :=
  if letters = [] then ([], true)
  else
    let prefixResults := ws.slist.filter (fun w => letters.isPrefixOf w)
    if prefixResults = [] then
      (rankTruncate (ws.slist.filter (fun w => containsSub letters w)) limit, false)
    else (rankTruncate prefixResults limit, true)

/-- `WordSuggester.remove_word(word)` (lines 63-69): lower-case the word,
remove it from `_set` if present and re-sort `_list`; returns whether a
removal occurred. -/
def WordSuggester.remove_word (ws : WordSuggester) (word : Word) :
    WordSuggester × Bool :=
  let word := pyLower word
  if word ∈ ws.sset then
    ({ sset := ws.sset.erase word,
       slist := List.insertionSort lexLeP (ws.sset.erase word) }, true)
  else (ws, false)

/-- A scheduled synthetic action of an in-flight plan (the payload of one
single-shot timer of the source). -/
inductive TimerAction where
  | backspaceAct : TimerAction
  | charAct (c : Char) : TimerAction
  | enterAct : TimerAction
deriving DecidableEq

/-- A key event delivered to `on_update_signal` ("BACKSPACE", "ENTER" or a
single character; the panic trigger is handled separately by
`panic_complete`). -/
inductive Key where
  | char (c : Char) : Key
  | backspace : Key
  | enter : Key
deriving DecidableEq

/-- The mutable state of `TypingOverlay` relevant to the core logic:
suggester, typed buffer, high score, visibility, and the scheduler's
plan bookkeeping.  Timer delays are recorded as cumulative fire offsets
in milliseconds. -/
structure OverlayState where
  suggester : WordSuggester
  buffer : Word
  high_score : Nat
  visible : Bool
  autocomplete_in_progress : Bool
  ignore_synthetic : Bool
  expected_synthetic : Nat
  autocomplete_timers : List (Nat × TimerAction)
deriving DecidableEq

/-- `TypingOverlay.cancel_autocomplete` (lines 585-594): stop and drop all
pending timers, clear the in-progress flag and the synthetic-suppression
counter; no-op when no plan is in flight. -/
def cancel_autocomplete (st : OverlayState) : OverlayState :=
  if !st.autocomplete_in_progress then st
  else
    { st with autocomplete_timers := [], autocomplete_in_progress := false,
              ignore_synthetic := false, expected_synthetic := 0 }

/-- `TypingOverlay.on_update_signal` (lines 332-353), the round-state
transition for one delivered key event: invisible overlay ignores the
event; ENTER during an in-flight plan cancels it; BACKSPACE drops the last
buffer character; ENTER submits (score and removal only when the
case-folded buffer is in the pool, buffer cleared unconditionally); a
character is appended lower-cased. -/
def on_update_signal (st : OverlayState) (k : Key) : OverlayState :=
  if !st.visible then st
  else
    match k with
    | Key.enter =>
      if st.autocomplete_in_progress then cancel_autocomplete st
      else
        let stScored :=
          if pyLower st.buffer ∈ st.suggester.sset then
            { st with
              high_score := max st.high_score st.buffer.length,
              suggester := (st.suggester.remove_word (pyLower st.buffer)).1 }
          else st
        { stScored with buffer := [] }
    | Key.backspace => { st with buffer := st.buffer.dropLast }
    | Key.char c => { st with buffer := st.buffer ++ [c.toLower] }

/-- Firing the earliest pending timer of the plan: dispatch its action
through `on_update_signal` exactly as the source's timer callbacks emit
`update_signal` (the final ENTER timer of a panic plan performs only the
physical press and dispatches nothing). -/
def fireNext (st : OverlayState) : OverlayState :=
  match st.autocomplete_timers with
  | [] => st
  | (_, a) :: rest =>
    let stRest := { st with autocomplete_timers := rest }
    match a with
    | TimerAction.backspaceAct => on_update_signal stRest Key.backspace
    | TimerAction.charAct c => on_update_signal stRest (Key.char c)
    | TimerAction.enterAct => stRest

/-- `fireNext` iterated `n` times. -/
def fireTimes (st : OverlayState) : Nat → OverlayState
  | 0 => st
  | n + 1 => fireTimes (fireNext st) n

/-- `int(max(MIN_MS, min(MAX_MS, sample)))` with `MIN_MS = 40` and
`MAX_MS = 300`: the sampled jitter clamped into `[40, 300]` and truncated
to integer milliseconds (the clamped value is positive, so Python's
truncation is the floor). -/
def clampDelay (x : ℚ) : Nat := (⌊max (40 : ℚ) (min 300 x)⌋).toNat

/-- Cumulative fire offsets of a plan: each action is delayed by the
clamped `i`-th sample relative to the previous action's fire time
(`cumulative_ms` of the source), with samples drawn from the oracle `g`. -/
def cumOffset (g : Nat → ℚ) : Nat → Nat
  | 0 => clampDelay (g 0)
  | n + 1 => cumOffset g n + clampDelay (g (n + 1))

/-- `TypingOverlay.start_autocomplete(target_word)` (lines 596-637), with
the `random.gauss(MEAN_MS, SD_MS)` samples abstracted as the oracle `g`:
reject when a plan is in flight, when the target does not start with the
current buffer, or when the remaining suffix is empty; otherwise schedule
one character timer per remaining character at cumulative clamped delays
and arm the synthetic-suppression counter. -/
def start_autocomplete (st : OverlayState) (g : Nat → ℚ) (target_word : Word) :
    OverlayState :=
  if st.autocomplete_in_progress then st
  else if !(st.buffer.isPrefixOf target_word) then st
  else
    let remaining := target_word.drop st.buffer.length
    if remaining = [] then st
    else
      { st with
        autocomplete_in_progress := true,
        autocomplete_timers :=
          remaining.enum.map (fun ic => (cumOffset g ic.1, TimerAction.charAct ic.2)),
        expected_synthetic := remaining.length,
        ignore_synthetic := true }

/-- The Tab branch of `TypingOverlay.handle_key` (lines 556-580): after the
synthetic-suppression guard, an autocomplete request is emitted only when
the 5-entry suggestion query is non-empty in strict-prefix mode and the
lower-cased buffer differs from the lower-cased longest suggestion; the
requested target is that longest suggestion. -/
def tabTarget (st : OverlayState) : Option Word :=
  if st.ignore_synthetic ∧ st.expected_synthetic > 0 then none
  else
    let sp := st.suggester.suggest (pyLower st.buffer) 5
    if sp.1 ≠ [] ∧ sp.2 = true then
      let longest_word := pyMaxByLen sp.1
      if pyLower st.buffer ≠ pyLower longest_word then some longest_word else none
    else none

/-- Target-word selection of `TypingOverlay.panic_complete` (lines
415-430): the top suggestion for the current buffer, else the top
suggestion for the buffer's first three characters, else the head of the
sorted pool list, else nothing. -/
def panicTarget (ws : WordSuggester) (orig_buffer : Word) : Option Word :=
  match (ws.suggest (pyLower orig_buffer) 100).1 with
  | t :: _ => some t
  | [] =>
    match (ws.suggest (pyLower (orig_buffer.take 3)) 100).1 with
    | t :: _ => some t
    | [] =>
      match ws.slist with
      | t :: _ => some t
      | [] => none

/-- The erase/type plan built by `panic_complete` (lines 432-450). -/
structure PanicPlan where
  target : Word
  backspaces : Nat
  chars : List Char
deriving DecidableEq

/-- Plan construction of `panic_complete`: nothing when the buffer is
empty or no target exists; otherwise type only the remaining suffix when
the target starts with the buffer (`can_finish`), else one backspace per
buffer character followed by the whole target. -/
def panicPlanOf (st : OverlayState) : Option PanicPlan :=
  if st.buffer = [] then none
  else
    match panicTarget st.suggester st.buffer with
    | none => none
    | some target_word =>
      if st.buffer.isPrefixOf target_word then
        some { target := target_word, backspaces := 0,
               chars := target_word.drop st.buffer.length }
      else
        some { target := target_word, backspaces := st.buffer.length,
               chars := target_word }

/-- The synthetic-event budget of a panic plan: backspaces + characters +
one final ENTER (`total_synthetic`, line 449). -/
def expectedOfPlan (p : PanicPlan) : Nat := p.backspaces + p.chars.length + 1

/-- The scheduled action sequence of a panic plan: the backspaces, then
the characters, then the single physical ENTER (lines 511-535). -/
def panicActions (p : PanicPlan) : List TimerAction :=
  List.replicate p.backspaces TimerAction.backspaceAct
    ++ p.chars.map TimerAction.charAct ++ [TimerAction.enterAct]

/-- Dispatch of one fired panic timer, as in the source's timer
callbacks: backspace and character timers emit the corresponding
`update_signal`; the ENTER timer performs only the physical press. -/
def dispatchTimer (st : OverlayState) (a : TimerAction) : OverlayState :=
  match a with
  | TimerAction.backspaceAct => on_update_signal st Key.backspace
  | TimerAction.charAct c => on_update_signal st (Key.char c)
  | TimerAction.enterAct => st

/-- The overlay state right after `panic_complete` has armed a plan
(lines 437-451): panic visuals aside, the in-progress flag is set, the
timer list was reset, and the suppression counter holds the plan's
synthetic-event budget. -/
def panicSetup (st : OverlayState) (p : PanicPlan) : OverlayState :=
  { st with autocomplete_in_progress := true, autocomplete_timers := [],
            expected_synthetic := expectedOfPlan p, ignore_synthetic := true }

/-- `TypingOverlay.panic_complete` run to completion, with the timers
fired in schedule order: return unchanged on an empty buffer; cancel any
in-flight plan; build the plan; fire its actions; then `finish_panic`
clears the flags and the delayed `handle_key(Key.enter)` dispatches the
real submit through `on_update_signal`. -/
def runPanic (st : OverlayState) : OverlayState :=
  if st.buffer = [] then st
  else
    let st1 := cancel_autocomplete st
    match panicPlanOf st1 with
    | none => st1
    | some p =>
      let st2 := panicSetup st1 p
      let st3 := (panicActions p).foldl dispatchTimer st2
      let st4 :=
        { st3 with autocomplete_timers := [], autocomplete_in_progress := false,
                   ignore_synthetic := false, expected_synthetic := 0 }
      on_update_signal st4 Key.enter

/-- The invariant claimed for `WordSuggester`: `_list` is a strictly
lexicographically ascending enumeration of exactly the words of `_set`
(in particular duplicate-free). -/
def goodSuggester (ws : WordSuggester) : Prop :=
  ws.slist.Pairwise lexLtP ∧ ws.slist.Perm ws.sset

/-- Modelled from the spec's ranking sentence (claim C2), for comparison
with the source's `rankTruncate`: "rank ascending by (length,
lexicographic), truncate to `limit - 1`, then force-append the single
longest candidate word if not already included; truncate final result to
`limit`." -/
def specRankTruncate (results : List Word) (limit : Nat) : List Word :=
  let ranked := (List.insertionSort keyLeP results).take (limit - 1)
  let longest_word := pyMaxByLen results
  (if longest_word ∈ ranked then ranked else ranked ++ [longest_word]).take limit

theorem lexLt_irrefl : ∀ a : Word, lexLt a a = false
  | [] => rfl
  | c :: t => by simp [lexLt, lexLt_irrefl t]

theorem lexLt_asymm : ∀ a b : Word, lexLt a b = true → lexLt b a = false := by
  intro a
  induction a with
  | nil =>
    intro b h
    cases b with
    | nil => simp [lexLt] at h
    | cons d s => simp [lexLt]
  | cons c t ih =>
    intro b h
    cases b with
    | nil => simp [lexLt] at h
    | cons d s =>
      by_cases h1 : c < d
      · simp [lexLt, h1, asymm h1]
      · by_cases h2 : d < c
        · simp [lexLt, h1, h2] at h
        · simp only [lexLt, if_neg h1, if_neg h2] at h
          simp [lexLt, h1, h2, ih s h]

theorem lexLt_connex : ∀ a b : Word, lexLt a b = false → lexLt b a = false → a = b := by
  intro a
  induction a with
  | nil =>
    intro b h _
    cases b with
    | nil => rfl
    | cons d s => simp [lexLt] at h
  | cons c t ih =>
    intro b h h2
    cases b with
    | nil => simp [lexLt] at h2
    | cons d s =>
      by_cases h3 : c < d
      · simp [lexLt, h3] at h
      · by_cases h4 : d < c
        · simp [lexLt, h4] at h2
        · have hcd : c = d := le_antisymm (not_lt.mp h4) (not_lt.mp h3)
          subst hcd
          simp only [lexLt, if_neg h3, if_neg h4] at h h2
          rw [ih s h h2]

theorem lexLt_trans : ∀ a b c : Word, lexLt a b = true → lexLt b c = true →
    lexLt a c = true := by
  intro a
  induction a with
  | nil =>
    intro b c h h2
    cases c with
    | nil => cases b <;> simp [lexLt] at h h2
    | cons e u => simp [lexLt]
  | cons x t ih =>
    intro b c h h2
    cases b with
    | nil => simp [lexLt] at h
    | cons y s =>
      cases c with
      | nil => simp [lexLt] at h2
      | cons z u =>
        by_cases hxy : x < y
        · by_cases hyz : y < z
          · simp [lexLt, lt_trans hxy hyz]
          · by_cases hzy : z < y
            · simp [lexLt, hyz, hzy] at h2
            · have : y = z := le_antisymm (not_lt.mp hzy) (not_lt.mp hyz)
              subst this
              simp [lexLt, hxy]
        · by_cases hyx : y < x
          · simp [lexLt, hxy, hyx] at h
          · have hxy2 : x = y := le_antisymm (not_lt.mp hyx) (not_lt.mp hxy)
            subst hxy2
            simp only [lexLt, if_neg hxy, if_neg hyx] at h
            by_cases hyz : x < z
            · simp [lexLt, hyz]
            · by_cases hzy : z < x
              · simp [lexLt, hyz, hzy] at h2
              · simp only [lexLt, if_neg hyz, if_neg hzy] at h2 ⊢
                exact ih s u h h2

theorem lexLe_refl (a : Word) : lexLe a a = true := by
  simp [lexLe, lexLt_irrefl]

theorem lexLe_of_lexLt {a b : Word} (h : lexLt a b = true) : lexLe a b = true := by
  simp [lexLe, lexLt_asymm a b h]

theorem lexLe_total (a b : Word) : lexLe a b = true ∨ lexLe b a = true := by
  by_cases h : lexLt b a = true
  · right
    simp [lexLe, lexLt_asymm b a h]
  · left
    simp [lexLe]
    simpa using h

theorem lexLt_of_lexLe_of_ne {a b : Word} (h : lexLe a b = true) (hne : a ≠ b) :
    lexLt a b = true := by
  by_contra hc
  exact hne (lexLt_connex a b (by simpa using hc) (by simpa [lexLe] using h))

theorem lexLe_trans {a b c : Word} (h : lexLe a b = true) (h2 : lexLe b c = true) :
    lexLe a c = true := by
  simp only [lexLe, Bool.not_eq_true'] at h h2 ⊢
  by_contra hc
  have hca : lexLt c a = true := by simpa using hc
  by_cases hab : a = b
  · subst hab
    simp [hca] at h2
  · have hba : lexLt a b = true :=
      lexLt_of_lexLe_of_ne (by simp [lexLe, h]) hab
    have : lexLt c b = true := lexLt_trans c a b hca hba
    simp [this] at h2

theorem keyLe_total (a b : Word) : keyLe a b = true ∨ keyLe b a = true := by
  unfold keyLe
  by_cases h1 : a.length < b.length
  · left
    simp [h1]
  · by_cases h2 : b.length < a.length
    · right
      simp [h2]
    · rcases lexLe_total a b with h | h <;> simp [h1, h2, h]

theorem keyLe_iff (a b : Word) : keyLe a b = true ↔
    (a.length < b.length ∨ (a.length = b.length ∧ lexLe a b = true)) := by
  unfold keyLe
  by_cases h1 : a.length < b.length
  · simp [h1]
  · by_cases h2 : b.length < a.length
    · simp [h1, h2]
      omega
    · have h3 : a.length = b.length := by omega
      simp [h1, h2, h3]

theorem keyLe_trans {a b c : Word} (h : keyLe a b = true) (h2 : keyLe b c = true) :
    keyLe a c = true := by
  rw [keyLe_iff] at h h2 ⊢
  rcases h with h | ⟨he, hl⟩
  · rcases h2 with h2 | ⟨he2, _⟩
    · exact Or.inl (lt_trans h h2)
    · exact Or.inl (he2 ▸ h)
  · rcases h2 with h2 | ⟨he2, hl2⟩
    · exact Or.inl (he ▸ h2)
    · exact Or.inr ⟨he.trans he2, lexLe_trans hl hl2⟩

theorem pySortLex_sorted (l : List Word) :
    (List.insertionSort lexLeP l).Sorted lexLeP := by
  haveI : IsTotal Word lexLeP := ⟨lexLe_total⟩
  haveI : IsTrans Word lexLeP := ⟨fun _ _ _ => lexLe_trans⟩
  exact List.sorted_insertionSort lexLeP l

theorem pySortKey_sorted (l : List Word) :
    (List.insertionSort keyLeP l).Sorted keyLeP := by
  haveI : IsTotal Word keyLeP := ⟨keyLe_total⟩
  haveI : IsTrans Word keyLeP := ⟨fun _ _ _ => keyLe_trans⟩
  exact List.sorted_insertionSort keyLeP l

theorem pySortLex_pairwise_lt {l : List Word} (h : l.Nodup) :
    (List.insertionSort lexLeP l).Pairwise lexLtP := by
  have hs : (List.insertionSort lexLeP l).Sorted lexLeP := pySortLex_sorted l
  have hn : (List.insertionSort lexLeP l).Nodup :=
    ((List.perm_insertionSort lexLeP l).symm).nodup h
  exact (hs.and hn).imp (fun hab => lexLt_of_lexLe_of_ne hab.1 hab.2)

theorem foldl_pyMax_mem (f : Word → Word → Word)
    (hf : ∀ acc x, f acc x = acc ∨ f acc x = x) :
    ∀ (l : List Word) (acc : Word), l.foldl f acc = acc ∨ l.foldl f acc ∈ l := by
  intro l
  induction l with
  | nil => intro acc; exact Or.inl rfl
  | cons w ws ih =>
    intro acc
    have hstep : (w :: ws).foldl f acc = ws.foldl f (f acc w) := rfl
    rw [hstep]
    rcases ih (f acc w) with h | h
    · rw [h]
      rcases hf acc w with h2 | h2
      · exact Or.inl h2
      · exact Or.inr (by rw [h2]; exact List.mem_cons_self w ws)
    · exact Or.inr (List.mem_cons_of_mem w h)

theorem pyMaxByLen_mem {l : List Word} (h : l ≠ []) : pyMaxByLen l ∈ l := by
  cases l with
  | nil => exact absurd rfl h
  | cons w ws =>
    have he : pyMaxByLen (w :: ws) =
        ws.foldl (fun acc x => if acc.length < x.length then x else acc) w := rfl
    rw [he]
    rcases foldl_pyMax_mem (fun acc x => if acc.length < x.length then x else acc)
        (fun acc x => by by_cases hx : acc.length < x.length <;> simp [hx]) ws w with
      h2 | h2
    · rw [h2]; exact List.mem_cons_self w ws
    · exact List.mem_cons_of_mem w h2

theorem mem_rankTruncate {w : Word} {results : List Word} {limit : Nat}
    (hw : w ∈ rankTruncate results limit) : w ∈ results := by
  unfold rankTruncate at hw
  have hperm := List.perm_insertionSort keyLeP results
  by_cases h : List.insertionSort keyLeP results = []
  · rw [if_pos h] at hw
    rw [h] at hw
    simp at hw
  · rw [if_neg h] at hw
    have hres : results ≠ [] := by
      intro hr
      subst hr
      exact h rfl
    by_cases hl : pyMaxByLen results ∈ (List.insertionSort keyLeP results).take limit
    · rw [if_pos hl] at hw
      exact hperm.mem_iff.mp (List.take_subset _ _ hw)
    · rw [if_neg hl] at hw
      rcases List.mem_append.mp hw with h1 | h2
      · exact hperm.mem_iff.mp (List.take_subset _ _ h1)
      · rw [List.mem_singleton.mp h2]
        exact pyMaxByLen_mem hres

theorem mem_suggest_slist {ws : WordSuggester} {letters : Word} {limit : Nat}
    {w : Word} (hw : w ∈ (ws.suggest letters limit).1) : w ∈ ws.slist := by
  unfold WordSuggester.suggest at hw
  by_cases h : letters = []
  · simp [h] at hw
  · rw [if_neg h] at hw
    by_cases h2 : ws.slist.filter (fun v => letters.isPrefixOf v) = []
    · simp only [h2, if_pos] at hw
      exact (List.mem_filter.mp (mem_rankTruncate hw)).1
    · simp only [if_neg h2] at hw
      exact (List.mem_filter.mp (mem_rankTruncate hw)).1

theorem mem_suggest_of_strict {ws : WordSuggester} {letters : Word} {limit : Nat}
    (h : letters ≠ []) (hmode : (ws.suggest letters limit).2 = true) :
    ∀ w ∈ (ws.suggest letters limit).1, letters.isPrefixOf w = true := by
  intro w hw
  unfold WordSuggester.suggest at hw
  rw [if_neg h] at hw
  by_cases h2 : ws.slist.filter (fun v => letters.isPrefixOf v) = []
  · exfalso
    unfold WordSuggester.suggest at hmode
    rw [if_neg h, if_pos h2] at hmode
    simp at hmode
  · simp only [if_neg h2] at hw
    exact (List.mem_filter.mp (mem_rankTruncate hw)).2

theorem charOfNat_toNat (n : Nat) (h : n.isValidChar) : (Char.ofNat n).toNat = n := by
  simp only [Char.ofNat, dif_pos h, Char.ofNatAux, Char.toNat]
  rfl

theorem toLower_idem (c : Char) : c.toLower.toLower = c.toLower := by
  by_cases h : c.toNat ≥ 65 ∧ c.toNat ≤ 90
  · have h1 : c.toLower = Char.ofNat (c.toNat + 32) := by
      simp only [Char.toLower, if_pos h]
    have ht : (Char.ofNat (c.toNat + 32)).toNat = c.toNat + 32 :=
      charOfNat_toNat _ (Or.inl (by omega))
    rw [h1]
    simp only [Char.toLower]
    rw [if_neg (by rw [ht]; omega)]
  · have h1 : c.toLower = c := by
      simp only [Char.toLower, if_neg h]
    rw [h1, h1]

theorem pyLower_idem (w : Word) : pyLower (pyLower w) = pyLower w := by
  unfold pyLower
  rw [List.map_map]
  exact List.map_congr_left (fun c _ => toLower_idem c)

theorem fireTimes_of_no_timers {st : OverlayState}
    (h : st.autocomplete_timers = []) : ∀ n, fireTimes st n = st := by
  intro n
  induction n with
  | zero => rfl
  | succ m ih =>
    have hfn : fireNext st = st := by
      unfold fireNext
      rw [h]
    show fireTimes (fireNext st) m = st
    rw [hfn]
    exact ih

theorem clampDelay_bounds (x : ℚ) : 40 ≤ clampDelay x ∧ clampDelay x ≤ 300 := by
  unfold clampDelay
  have hlo : (40 : ℤ) ≤ ⌊max (40 : ℚ) (min 300 x)⌋ :=
    Int.le_floor.mpr (by exact_mod_cast le_max_left (40 : ℚ) (min 300 x))
  have hhi : ⌊max (40 : ℚ) (min 300 x)⌋ ≤ 300 := by
    have h1 : max (40 : ℚ) (min 300 x) ≤ 300 :=
      max_le (by norm_num) (min_le_left 300 x)
    have h2 : ⌊max (40 : ℚ) (min 300 x)⌋ ≤ ⌊(300 : ℚ)⌋ := Int.floor_le_floor h1
    have h3 : ⌊(300 : ℚ)⌋ = 300 := by norm_num
    omega
  omega

theorem cumOffset_strictMono (g : Nat → ℚ) : StrictMono (cumOffset g) := by
  apply strictMono_nat_of_lt_succ
  intro n
  have h := (clampDelay_bounds (g (n + 1))).1
  show cumOffset g n < cumOffset g n + clampDelay (g (n + 1))
  omega

theorem good_init (words : List Word) : goodSuggester (WordSuggester.init words) := by
  constructor
  · exact pySortLex_pairwise_lt (List.nodup_dedup words)
  · exact List.perm_insertionSort lexLeP words.dedup

theorem goodSuggester_sset_nodup {ws : WordSuggester} (h : goodSuggester ws) :
    ws.sset.Nodup := by
  apply h.2.nodup
  exact h.1.imp (fun hab => by
    intro he
    subst he
    exact Bool.false_ne_true ((lexLt_irrefl _).symm.trans hab))

theorem good_remove (ws : WordSuggester) (word : Word) (h : goodSuggester ws) :
    goodSuggester (ws.remove_word word).1 := by
  unfold WordSuggester.remove_word
  by_cases hm : pyLower word ∈ ws.sset
  · rw [if_pos hm]
    constructor
    · exact pySortLex_pairwise_lt ((goodSuggester_sset_nodup h).erase (pyLower word))
    · exact List.perm_insertionSort lexLeP _
  · rw [if_neg hm]
    exact h

theorem remove_word_of_mem {ws : WordSuggester} {word : Word}
    (h : pyLower word ∈ ws.sset) :
    ws.remove_word word =
      ({ sset := ws.sset.erase (pyLower word),
         slist := List.insertionSort lexLeP (ws.sset.erase (pyLower word)) }, true) := by
  unfold WordSuggester.remove_word
  rw [if_pos h]

theorem remove_word_of_not_mem {ws : WordSuggester} {word : Word}
    (h : pyLower word ∉ ws.sset) : ws.remove_word word = (ws, false) := by
  unfold WordSuggester.remove_word
  rw [if_neg h]

/-- C1: `suggest` returns `([], true)` on an empty typed buffer; on a
non-empty buffer its candidate set is the pool words starting with the
buffer with strict mode `true`, and only when that set is empty the pool
words containing the buffer as a substring with strict mode `false`;
consequently every suggested word is a member of the pool. -/
theorem C1_suggest_candidates :
    ∀ (ws : WordSuggester) (letters : Word) (limit : Nat),
      (letters = [] → ws.suggest letters limit = ([], true)) ∧
      (letters ≠ [] →
        (ws.slist.filter (fun w => letters.isPrefixOf w) ≠ [] →
          ws.suggest letters limit =
            (rankTruncate (ws.slist.filter (fun w => letters.isPrefixOf w)) limit,
              true)) ∧
        (ws.slist.filter (fun w => letters.isPrefixOf w) = [] →
          ws.suggest letters limit =
            (rankTruncate (ws.slist.filter (fun w => containsSub letters w)) limit,
              false))) ∧
      (∀ w ∈ (ws.suggest letters limit).1, w ∈ ws.slist) := by
  intro ws letters limit
  refine ⟨fun h => by simp [WordSuggester.suggest, h],
    fun h => ⟨fun h2 => ?_, fun h2 => ?_⟩,
    fun w hw => mem_suggest_slist hw⟩
  · unfold WordSuggester.suggest
    rw [if_neg h, if_neg h2]
  · unfold WordSuggester.suggest
    rw [if_neg h, if_pos h2]

theorem C1_witness :
    (WordSuggester.init ["abc".toList]).suggest "b".toList 5 =
      (["abc".toList], false) := by
  have h := ((C1_suggest_candidates (WordSuggester.init ["abc".toList])
      "b".toList 5).2.1 (by decide)).2 (by decide)
  exact h.trans (by decide)

/-- C2 counterexample: on pool {"a","aa","ab"}, buffer "a" and limit 3
the source keeps all three ranked words, while the claimed procedure
(truncate to `limit - 1`, append the longest only if missing, truncate to
`limit`) would return only two. -/
theorem C2_counterexample :
    ((WordSuggester.init ["a".toList, "aa".toList, "ab".toList]).suggest
        "a".toList 3).1 ≠
      specRankTruncate
        ((WordSuggester.init ["a".toList, "aa".toList, "ab".toList]).slist.filter
          (fun w => ("a".toList).isPrefixOf w)) 3 := by
  decide

/-- C2 (amended): for a non-empty candidate set, `suggest` ranks the
candidates ascending by (length, lexicographic); when the single longest
candidate already lies among the first `limit` ranked words the result is
the ranking truncated to `limit`, otherwise it is the ranking truncated to
`limit - 1` with the longest candidate appended; in particular for pool
{"cats","catalog"} and buffer "cat" with limit 5 it returns
`(["cats","catalog"], true)`. -/
theorem C2_rank_and_truncate :
    (∀ (results : List Word) (limit : Nat), results ≠ [] →
      (List.insertionSort keyLeP results).Sorted keyLeP ∧
      (List.insertionSort keyLeP results).Perm results ∧
      rankTruncate results limit =
        (if pyMaxByLen results ∈ (List.insertionSort keyLeP results).take limit
         then (List.insertionSort keyLeP results).take limit
         else (List.insertionSort keyLeP results).take (limit - 1)
                ++ [pyMaxByLen results])) ∧
    (WordSuggester.init ["cats".toList, "catalog".toList]).suggest
        "cat".toList 5 =
      (["cats".toList, "catalog".toList], true) := by
  constructor
  · intro results limit hres
    refine ⟨pySortKey_sorted results, List.perm_insertionSort keyLeP results, ?_⟩
    unfold rankTruncate
    rw [if_neg ?hne]
    case hne =>
      intro hnil
      apply hres
      have hp := List.perm_insertionSort keyLeP results
      rw [hnil] at hp
      exact (hp.symm).eq_nil
  · decide

theorem C2_witness :
    (List.insertionSort keyLeP ["b".toList]).Sorted keyLeP ∧
    (List.insertionSort keyLeP ["b".toList]).Perm ["b".toList] ∧
    rankTruncate ["b".toList] 1 =
      (if pyMaxByLen ["b".toList] ∈ (List.insertionSort keyLeP ["b".toList]).take 1
       then (List.insertionSort keyLeP ["b".toList]).take 1
       else (List.insertionSort keyLeP ["b".toList]).take (1 - 1)
              ++ [pyMaxByLen ["b".toList]]) :=
  C2_rank_and_truncate.1 ["b".toList] 1 (by decide)

/-- C6: `remove_word` is case-insensitive (it depends only on the
lower-cased argument), and on a lower-case pool an existing word is
removed with result `true` while the immediate second call returns
`false` and leaves the suggester unchanged. -/
theorem C6_remove_word_props :
    (∀ (ws : WordSuggester) (word : Word),
      ws.sset.Nodup → (∀ v ∈ ws.sset, pyLower v = v) → word ∈ ws.sset →
        (ws.remove_word word).2 = true ∧
        word ∉ (ws.remove_word word).1.sset ∧
        (ws.remove_word word).1.remove_word word =
          ((ws.remove_word word).1, false)) ∧
    (∀ (ws : WordSuggester) (w₁ w₂ : Word), pyLower w₁ = pyLower w₂ →
      ws.remove_word w₁ = ws.remove_word w₂) := by
  constructor
  · intro ws word hnd hlc hmem
    have hl : pyLower word = word := hlc word hmem
    have hm : pyLower word ∈ ws.sset := by rw [hl]; exact hmem
    have hnot : word ∉ ws.sset.erase (pyLower word) := by
      rw [hl]
      exact hnd.not_mem_erase
    refine ⟨by rw [remove_word_of_mem hm], ?_, ?_⟩
    · rw [remove_word_of_mem hm]
      exact hnot
    · apply remove_word_of_not_mem
      rw [remove_word_of_mem hm]
      rw [hl]
      exact hnd.not_mem_erase
  · intro ws w₁ w₂ he
    unfold WordSuggester.remove_word
    rw [he]

theorem C6_witness :
    ((WordSuggester.init ["dog".toList]).remove_word "dog".toList).2 = true ∧
    "dog".toList ∉
      ((WordSuggester.init ["dog".toList]).remove_word "dog".toList).1.sset ∧
    ((WordSuggester.init ["dog".toList]).remove_word
        "dog".toList).1.remove_word "dog".toList =
      (((WordSuggester.init ["dog".toList]).remove_word "dog".toList).1, false) :=
  C6_remove_word_props.1 (WordSuggester.init ["dog".toList]) "dog".toList
    (by decide) (by decide) (by decide)

/-- C10: construction and every `remove_word` call keep the invariant
that `_list` is the strictly ascending lexicographic enumeration of
exactly the words of `_set` (hence duplicate-free and in lexicographic
order). -/
theorem C10_suggester_invariant :
    (∀ words : List Word, goodSuggester (WordSuggester.init words)) ∧
    (∀ (ws : WordSuggester) (word : Word), goodSuggester ws →
      goodSuggester (ws.remove_word word).1) :=
  ⟨good_init, fun ws word h => good_remove ws word h⟩

theorem C10_witness :
    goodSuggester ((WordSuggester.init ["b".toList, "a".toList]).remove_word
      "a".toList).1 :=
  C10_suggester_invariant.2 _ _
    (C10_suggester_invariant.1 ["b".toList, "a".toList])

theorem on_update_enter_submit {st : OverlayState} (hv : st.visible = true)
    (hp : st.autocomplete_in_progress = false) :
    on_update_signal st Key.enter =
      (if pyLower st.buffer ∈ st.suggester.sset then
        { st with buffer := [],
                  high_score := max st.high_score st.buffer.length,
                  suggester := (st.suggester.remove_word (pyLower st.buffer)).1 }
      else { st with buffer := [] }) := by
  by_cases hm : pyLower st.buffer ∈ st.suggester.sset <;>
    simp [on_update_signal, hv, hp, hm]

/-- C5: on a Submit event (outside an in-flight plan, overlay visible),
a case-folded buffer found in the pool raises the high score to the
maximum of its old value and the buffer length and removes the word from
the pool; the buffer is cleared unconditionally; an invalid submission
changes neither score nor pool (and the transition is total, so no
exception is possible). -/
theorem C5_submit_semantics (st : OverlayState)
    (hv : st.visible = true) (hp : st.autocomplete_in_progress = false) :
    (on_update_signal st Key.enter).buffer = [] ∧
    (pyLower st.buffer ∈ st.suggester.sset →
      (on_update_signal st Key.enter).high_score =
        max st.high_score st.buffer.length ∧
      (on_update_signal st Key.enter).suggester =
        (st.suggester.remove_word (pyLower st.buffer)).1 ∧
      (st.suggester.sset.Nodup →
        pyLower st.buffer ∉ (on_update_signal st Key.enter).suggester.sset)) ∧
    (pyLower st.buffer ∉ st.suggester.sset →
      (on_update_signal st Key.enter).high_score = st.high_score ∧
      (on_update_signal st Key.enter).suggester = st.suggester) := by
  rw [on_update_enter_submit hv hp]
  by_cases hm : pyLower st.buffer ∈ st.suggester.sset
  · rw [if_pos hm]
    refine ⟨rfl, fun _ => ⟨rfl, rfl, fun hnd => ?_⟩, fun hnm => absurd hm hnm⟩
    have hm2 : pyLower (pyLower st.buffer) ∈ st.suggester.sset := by
      rw [pyLower_idem]
      exact hm
    show pyLower st.buffer ∉ ((st.suggester.remove_word (pyLower st.buffer)).1).sset
    rw [remove_word_of_mem hm2]
    show pyLower st.buffer ∉ st.suggester.sset.erase (pyLower (pyLower st.buffer))
    rw [pyLower_idem]
    exact hnd.not_mem_erase
  · rw [if_neg hm]
    exact ⟨rfl, fun h2 => absurd h2 hm, fun _ => ⟨rfl, rfl⟩⟩

theorem C5_witness :
    (on_update_signal
      ⟨WordSuggester.init ["dog".toList], "dog".toList, 0, true, false, false, 0, []⟩
      Key.enter).buffer = [] ∧
    (on_update_signal
      ⟨WordSuggester.init ["dog".toList], "dog".toList, 0, true, false, false, 0, []⟩
      Key.enter).high_score = 3 ∧
    "dog".toList ∉ (on_update_signal
      ⟨WordSuggester.init ["dog".toList], "dog".toList, 0, true, false, false, 0, []⟩
      Key.enter).suggester.sset := by
  have h := C5_submit_semantics
    ⟨WordSuggester.init ["dog".toList], "dog".toList, 0, true, false, false, 0, []⟩
    (by decide) (by decide)
  have h2 := h.2.1 (by decide)
  refine ⟨h.1, h2.1.trans (by decide), ?_⟩
  have h3 := h2.2.2 (by decide)
  exact (by decide : pyLower "dog".toList = "dog".toList) ▸ h3

/-- C9: cancelling an in-flight plan empties the pending-timer list,
clears the in-progress flag and resets the synthetic-suppression counter
to zero in the very state `cancel_autocomplete` returns, the cancel
itself does not touch the buffer, and firing any number of subsequent
timer steps mutates nothing (no buffer mutation from the cancelled plan
occurs after cancellation). -/
theorem C9_cancel_atomic (st : OverlayState)
    (h : st.autocomplete_in_progress = true) :
    (cancel_autocomplete st).autocomplete_timers = [] ∧
    (cancel_autocomplete st).autocomplete_in_progress = false ∧
    (cancel_autocomplete st).expected_synthetic = 0 ∧
    (cancel_autocomplete st).ignore_synthetic = false ∧
    (cancel_autocomplete st).buffer = st.buffer ∧
    (∀ n, fireTimes (cancel_autocomplete st) n = cancel_autocomplete st) := by
  have hc : cancel_autocomplete st =
      { st with autocomplete_timers := [], autocomplete_in_progress := false,
                ignore_synthetic := false, expected_synthetic := 0 } := by
    unfold cancel_autocomplete
    rw [h]
    rfl
  rw [hc]
  exact ⟨rfl, rfl, rfl, rfl, rfl, fireTimes_of_no_timers rfl⟩

theorem C9_witness :
    (cancel_autocomplete
      ⟨WordSuggester.init [], "ab".toList, 0, true, true, true, 2,
        [(50, TimerAction.charAct 'x')]⟩).autocomplete_timers = [] ∧
    (cancel_autocomplete
      ⟨WordSuggester.init [], "ab".toList, 0, true, true, true, 2,
        [(50, TimerAction.charAct 'x')]⟩).expected_synthetic = 0 ∧
    (fireTimes (cancel_autocomplete
      ⟨WordSuggester.init [], "ab".toList, 0, true, true, true, 2,
        [(50, TimerAction.charAct 'x')]⟩) 3).buffer = "ab".toList := by
  have h := C9_cancel_atomic
    ⟨WordSuggester.init [], "ab".toList, 0, true, true, true, 2,
      [(50, TimerAction.charAct 'x')]⟩ (by decide)
  refine ⟨h.1, h.2.2.1, ?_⟩
  rw [h.2.2.2.2.2 3]
  exact h.2.2.2.2.1

/-- C7: `start_autocomplete` returns with all scheduler state unchanged
when a plan is already in flight, when the target does not start with
the current buffer, or when the remaining suffix is empty; and the Tab
branch of `handle_key` requests a plan only when the current ranking is
in strict-prefix mode and the longest candidate strictly extends the
(lower-case) buffer. -/
theorem C7_autocomplete_guard :
    (∀ (st : OverlayState) (g : Nat → ℚ) (target_word : Word),
      (st.autocomplete_in_progress = true →
        start_autocomplete st g target_word = st) ∧
      (st.buffer.isPrefixOf target_word = false →
        start_autocomplete st g target_word = st) ∧
      (target_word.drop st.buffer.length = [] →
        start_autocomplete st g target_word = st)) ∧
    (∀ (st : OverlayState) (target_word : Word),
      (∀ v ∈ st.suggester.slist, pyLower v = v) →
      pyLower st.buffer = st.buffer →
      tabTarget st = some target_word →
        (st.suggester.suggest (pyLower st.buffer) 5).2 = true ∧
        st.buffer.isPrefixOf target_word = true ∧
        target_word ≠ st.buffer) := by
  constructor
  · intro st g target_word
    refine ⟨fun h => by simp [start_autocomplete, h],
      fun h => ?_, fun h => ?_⟩
    · by_cases hp : st.autocomplete_in_progress <;>
        simp [start_autocomplete, hp, h]
    · by_cases hp : st.autocomplete_in_progress <;>
        by_cases hpre : st.buffer.isPrefixOf target_word <;>
          simp [start_autocomplete, hp, hpre, h]
  · intro st target_word hlc hbuf htab
    simp only [tabTarget] at htab
    by_cases hig : st.ignore_synthetic ∧ st.expected_synthetic > 0
    · rw [if_pos hig] at htab
      exact absurd htab (by simp)
    · rw [if_neg hig] at htab
      by_cases hcond : (st.suggester.suggest (pyLower st.buffer) 5).1 ≠ [] ∧
          (st.suggester.suggest (pyLower st.buffer) 5).2 = true
      · rw [if_pos hcond] at htab
        by_cases hne2 : pyLower st.buffer ≠
            pyLower (pyMaxByLen (st.suggester.suggest (pyLower st.buffer) 5).1)
        · rw [if_pos hne2] at htab
          have htw : target_word =
              pyMaxByLen (st.suggester.suggest (pyLower st.buffer) 5).1 :=
            (Option.some.inj htab).symm
          have hmemtw : target_word ∈ (st.suggester.suggest (pyLower st.buffer) 5).1 := by
            rw [htw]
            exact pyMaxByLen_mem hcond.1
          have hl0 : pyLower st.buffer ≠ [] := by
            intro h0
            apply hcond.1
            rw [h0]
            rfl
          have hpre : (pyLower st.buffer).isPrefixOf target_word = true :=
            mem_suggest_of_strict hl0 hcond.2 target_word hmemtw
          rw [hbuf] at hpre
          refine ⟨hcond.2, hpre, fun heq => hne2 ?_⟩
          rw [← htw, heq]
        · rw [if_neg hne2] at htab
          exact absurd htab (by simp)
      · rw [if_neg hcond] at htab
        exact absurd htab (by simp)

theorem C7_witness :
    start_autocomplete
      ⟨WordSuggester.init ["cat".toList], "ca".toList, 0, true, true, false, 0, []⟩
      (fun _ => 0) "cat".toList =
      ⟨WordSuggester.init ["cat".toList], "ca".toList, 0, true, true, false, 0, []⟩ ∧
    ((⟨WordSuggester.init ["cat".toList], "ca".toList, 0, true, false, false, 0, []⟩ :
        OverlayState).suggester.suggest
      (pyLower "ca".toList) 5).2 = true ∧
    ("ca".toList).isPrefixOf "cat".toList = true ∧
    "cat".toList ≠ "ca".toList := by
  have h1 := (C7_autocomplete_guard.1
    ⟨WordSuggester.init ["cat".toList], "ca".toList, 0, true, true, false, 0, []⟩
    (fun _ => 0) "cat".toList).1 (by decide)
  have h2 := C7_autocomplete_guard.2
    ⟨WordSuggester.init ["cat".toList], "ca".toList, 0, true, false, false, 0, []⟩
    "cat".toList (by decide) (by decide) (by decide)
  exact ⟨h1, h2.1, h2.2.1, h2.2.2⟩

theorem enum_pair_map_snd {α β γ : Type} (l : List α) (f : Nat → β) (h : α → γ) :
    (l.enum.map (fun ic => (f ic.1, h ic.2))).map Prod.snd = l.map h := by
  rw [List.map_map]
  have h1 : (Prod.snd ∘ fun ic : Nat × α => (f ic.1, h ic.2)) = fun ic => h ic.2 := rfl
  rw [h1]
  have h2 : (fun ic : Nat × α => h ic.2) = h ∘ Prod.snd := rfl
  rw [h2, ← List.map_map, List.enum_map_snd]

theorem enum_pair_map_fst {α β γ : Type} (l : List α) (f : Nat → β) (h : α → γ) :
    (l.enum.map (fun ic => (f ic.1, h ic.2))).map Prod.fst =
      (List.range l.length).map f := by
  rw [List.map_map]
  have h1 : (Prod.fst ∘ fun ic : Nat × α => (f ic.1, h ic.2)) = fun ic => f ic.1 := rfl
  rw [h1]
  have h2 : (fun ic : Nat × α => f ic.1) = f ∘ Prod.fst := rfl
  rw [h2, ← List.map_map, List.enum_map_fst]

/-- C8: an accepted autocomplete plan holds exactly one scheduled action
per remaining character, in order; its fire offsets are the cumulative
sums of the per-step delays, each step's delay is the clamped sample in
`[40, 300]` milliseconds relative to the previous action's fire time, and
therefore the fire offsets are strictly increasing. -/
theorem C8_plan_timing (st : OverlayState) (g : Nat → ℚ) (target_word : Word)
    (h1 : st.autocomplete_in_progress = false)
    (h2 : st.buffer.isPrefixOf target_word = true)
    (h3 : target_word.drop st.buffer.length ≠ []) :
    (start_autocomplete st g target_word).autocomplete_timers.length =
      (target_word.drop st.buffer.length).length ∧
    (start_autocomplete st g target_word).autocomplete_timers.map Prod.snd =
      (target_word.drop st.buffer.length).map TimerAction.charAct ∧
    (start_autocomplete st g target_word).autocomplete_timers.map Prod.fst =
      (List.range (target_word.drop st.buffer.length).length).map (cumOffset g) ∧
    cumOffset g 0 = clampDelay (g 0) ∧
    (∀ i, cumOffset g (i + 1) = cumOffset g i + clampDelay (g (i + 1))) ∧
    (∀ i, 40 ≤ clampDelay (g i) ∧ clampDelay (g i) ≤ 300) ∧
    ((start_autocomplete st g target_word).autocomplete_timers.map
      Prod.fst).Pairwise (· < ·) := by
  have ht : (start_autocomplete st g target_word).autocomplete_timers =
      (target_word.drop st.buffer.length).enum.map
        (fun ic => (cumOffset g ic.1, TimerAction.charAct ic.2)) := by
    simp [start_autocomplete, h1, h2, h3]
  have hfst := enum_pair_map_fst (target_word.drop st.buffer.length)
    (cumOffset g) TimerAction.charAct
  refine ⟨?_, ?_, ?_, rfl, fun i => rfl, fun i => clampDelay_bounds (g i), ?_⟩
  · rw [ht, List.length_map, List.enum_length]
  · rw [ht]
    exact enum_pair_map_snd _ _ _
  · rw [ht]
    exact hfst
  · rw [ht, hfst]
    exact List.pairwise_map.mpr
      ((List.pairwise_lt_range _).imp (fun hab => cumOffset_strictMono g hab))

theorem C8_witness :
    (start_autocomplete
      ⟨WordSuggester.init ["catalog".toList], "ca".toList, 0, true, false, false, 0, []⟩
      (fun _ => 100) "catalog".toList).autocomplete_timers.length = 5 ∧
    (start_autocomplete
      ⟨WordSuggester.init ["catalog".toList], "ca".toList, 0, true, false, false, 0, []⟩
      (fun _ => 100) "catalog".toList).autocomplete_timers.map Prod.snd =
      [TimerAction.charAct 't', TimerAction.charAct 'a', TimerAction.charAct 'l',
        TimerAction.charAct 'o', TimerAction.charAct 'g'] ∧
    ((start_autocomplete
      ⟨WordSuggester.init ["catalog".toList], "ca".toList, 0, true, false, false, 0, []⟩
      (fun _ => 100) "catalog".toList).autocomplete_timers.map
        Prod.fst).Pairwise (· < ·) := by
  have h := C8_plan_timing
    ⟨WordSuggester.init ["catalog".toList], "ca".toList, 0, true, false, false, 0, []⟩
    (fun _ => 100) "catalog".toList (by decide) (by decide) (by decide)
  exact ⟨h.1.trans (by decide), h.2.1.trans (by decide), h.2.2.2.2.2.2⟩

theorem cancel_of_not_in_progress {st : OverlayState}
    (h : st.autocomplete_in_progress = false) : cancel_autocomplete st = st := by
  unfold cancel_autocomplete
  rw [h]
  rfl

theorem suggest_nil_of_slist_nil {ws : WordSuggester} (h : ws.slist = [])
    (letters : Word) (limit : Nat) : (ws.suggest letters limit).1 = [] := by
  unfold WordSuggester.suggest
  by_cases hl : letters = []
  · rw [if_pos hl]
  · rw [if_neg hl, h]
    simp [rankTruncate]

/-- C3: for a non-empty buffer with a chosen target word, the panic plan
types only the remaining suffix with zero backspaces when the target
starts with the buffer, and otherwise schedules one backspace per buffer
character followed by every character of the full target; the
expected-synthetic counter is armed to backspaces + characters + 1 (the
final ENTER).  For buffer "do" and pool {"dog"} the plan has 0
backspaces, types "g", then ENTER, and after completion "dog" is removed
from the pool and the buffer is empty. -/
theorem C3_panic_plan :
    (∀ (st : OverlayState) (target_word : Word),
      st.buffer ≠ [] →
      panicTarget st.suggester st.buffer = some target_word →
        (st.buffer.isPrefixOf target_word = true →
          panicPlanOf st = some
            { target := target_word, backspaces := 0,
              chars := target_word.drop st.buffer.length }) ∧
        (st.buffer.isPrefixOf target_word = false →
          panicPlanOf st = some
            { target := target_word, backspaces := st.buffer.length,
              chars := target_word }) ∧
        (∀ p, panicPlanOf st = some p →
          (panicSetup st p).expected_synthetic =
            p.backspaces + p.chars.length + 1)) ∧
    (panicPlanOf
        ⟨WordSuggester.init ["dog".toList], "do".toList, 0, true, false, false,
          0, []⟩ =
      some { target := "dog".toList, backspaces := 0, chars := "g".toList } ∧
    panicActions { target := "dog".toList, backspaces := 0, chars := "g".toList } =
      [TimerAction.charAct 'g', TimerAction.enterAct] ∧
    (runPanic
        ⟨WordSuggester.init ["dog".toList], "do".toList, 0, true, false, false,
          0, []⟩).suggester.sset = [] ∧
    (runPanic
        ⟨WordSuggester.init ["dog".toList], "do".toList, 0, true, false, false,
          0, []⟩).buffer = []) := by
  constructor
  · intro st target_word hb htgt
    refine ⟨fun hpre => ?_, fun hpre => ?_, fun p hp => rfl⟩
    · unfold panicPlanOf
      rw [if_neg hb, htgt]
      simp [hpre]
    · unfold panicPlanOf
      rw [if_neg hb, htgt]
      simp [hpre]
  · exact ⟨by decide, by decide, by decide, by decide⟩

theorem C3_witness :
    panicPlanOf
      ⟨WordSuggester.init ["dog".toList], "do".toList, 0, true, false, false,
        0, []⟩ =
      some { target := "dog".toList, backspaces := 0, chars := "g".toList } :=
  ((C3_panic_plan.1
    ⟨WordSuggester.init ["dog".toList], "do".toList, 0, true, false, false, 0, []⟩
    "dog".toList (by decide) (by decide)).1 (by decide))

/-- C4: panic is a no-op on an empty buffer; otherwise its target is the
top suggestion for the current buffer, else the top suggestion for the
buffer's first three characters, else the head of the sorted pool list
(which is lexicographically least in the pool under the suggester
invariant), and with an empty pool no plan is built and the state is
untouched (when no plan is in flight to cancel). -/
theorem C4_panic_target_choice :
    ∀ st : OverlayState,
      (st.buffer = [] → runPanic st = st) ∧
      (st.buffer ≠ [] →
        ((st.suggester.suggest (pyLower st.buffer) 100).1 ≠ [] →
          panicTarget st.suggester st.buffer =
            (st.suggester.suggest (pyLower st.buffer) 100).1.head?) ∧
        ((st.suggester.suggest (pyLower st.buffer) 100).1 = [] →
          (st.suggester.suggest (pyLower (st.buffer.take 3)) 100).1 ≠ [] →
          panicTarget st.suggester st.buffer =
            (st.suggester.suggest (pyLower (st.buffer.take 3)) 100).1.head?) ∧
        ((st.suggester.suggest (pyLower st.buffer) 100).1 = [] →
          (st.suggester.suggest (pyLower (st.buffer.take 3)) 100).1 = [] →
          panicTarget st.suggester st.buffer = st.suggester.slist.head?) ∧
        (goodSuggester st.suggester →
          ∀ t rest, st.suggester.slist = t :: rest →
            ∀ w ∈ st.suggester.sset, lexLe t w = true) ∧
        (st.suggester.slist = [] →
          panicPlanOf st = none ∧
          (st.autocomplete_in_progress = false → runPanic st = st))) := by
  intro st
  constructor
  · intro h
    unfold runPanic
    rw [if_pos h]
  · intro hb
    refine ⟨?_, ?_, ?_, ?_, ?_⟩
    · intro h1
      cases hc : (st.suggester.suggest (pyLower st.buffer) 100).1 with
      | nil => exact absurd hc h1
      | cons t rest =>
        unfold panicTarget
        rw [hc]
        rfl
    · intro h1 h2
      cases hc : (st.suggester.suggest (pyLower (st.buffer.take 3)) 100).1 with
      | nil => exact absurd hc h2
      | cons t rest =>
        unfold panicTarget
        rw [h1, hc]
        rfl
    · intro h1 h2
      unfold panicTarget
      rw [h1, h2]
      cases hsl : st.suggester.slist with
      | nil => rfl
      | cons t rest => rfl
    · intro hg t rest hsl w hw
      have hwl : w ∈ st.suggester.slist := hg.2.mem_iff.mpr hw
      have hpw := hg.1
      rw [hsl] at hwl hpw
      rcases List.mem_cons.mp hwl with he | hm
      · rw [he]
        exact lexLe_refl t
      · exact lexLe_of_lexLt (List.rel_of_pairwise_cons hpw hm)
    · intro hsl
      have hs1 : (st.suggester.suggest (pyLower st.buffer) 100).1 = [] :=
        suggest_nil_of_slist_nil hsl _ _
      have hs2 : (st.suggester.suggest (pyLower (st.buffer.take 3)) 100).1 = [] :=
        suggest_nil_of_slist_nil hsl _ _
      have hpt : panicTarget st.suggester st.buffer = none := by
        unfold panicTarget
        rw [hs1, hs2, hsl]
      have hplan : panicPlanOf st = none := by
        unfold panicPlanOf
        rw [if_neg hb, hpt]
      refine ⟨hplan, fun hip => ?_⟩
      have hcancel : cancel_autocomplete st = st := cancel_of_not_in_progress hip
      simp only [runPanic]
      rw [if_neg hb, hcancel, hplan]

theorem C4_witness :
    runPanic ⟨WordSuggester.init [], "ab".toList, 0, true, false, false, 0, []⟩ =
      ⟨WordSuggester.init [], "ab".toList, 0, true, false, false, 0, []⟩ ∧
    panicPlanOf ⟨WordSuggester.init [], "ab".toList, 0, true, false, false, 0, []⟩ =
      none := by
  have h := (C4_panic_target_choice
    ⟨WordSuggester.init [], "ab".toList, 0, true, false, false, 0, []⟩).2 (by decide)
  have h5 := h.2.2.2.2 (by decide)
  exact ⟨h5.2 (by decide), h5.1⟩
